import Mathlib

/-!
Shallow embedding of the `cppbreaker` circuit breaker (files
`circuit_breaker.h` / `circuit_breaker.cc`).

Modelling conventions:
* `uint32_t` counters are `Nat` with every increment taken `% 2^32`;
  `uint64_t generation_` is `Nat` with increments taken `% 2^64`.
* `std::chrono::system_clock::time_point` and `std::chrono::nanoseconds`
  are `Int` (a signed count of nanoseconds; the zero timestamp is `0`).
* `std::function` fields that may be `nullptr` are `Option`-valued.
* The mutex only serializes the member functions; each C++ member function
  becomes a pure function from the breaker record (plus an explicit `now`,
  standing for the `system_clock::now()` call inside it) to a new record.
* `on_state_change` returns `void` and cannot modify the breaker, so the
  embedding carries the field but its invocation has no modelled effect.
-/

namespace Cppbreaker

/-- Modulus of the 32-bit unsigned counters. -/
def U32 : Nat := 2 ^ 32

/-- Modulus of the 64-bit unsigned generation counter. -/
def U64 : Nat := 2 ^ 64

/-- The `Counts` record of `circuit_breaker.h` (five `uint32_t` fields). -/
@[ext]
structure Counts where
  requests : Nat := 0
  total_successes : Nat := 0
  total_failures : Nat := 0
  consecutive_successes : Nat := 0
  consecutive_failures : Nat := 0
  deriving Repr, DecidableEq

/-- Embeds `Counts::onRequest`: `requests++` (32-bit wrap). -/
def Counts.onRequest (c : Counts) : Counts :=
  { c with requests := (c.requests + 1) % U32 }

/-- Embeds `Counts::onSuccess`: bump both success counters, zero the failure streak. -/
def Counts.onSuccess (c : Counts) : Counts :=
  { c with
    total_successes := (c.total_successes + 1) % U32
    consecutive_successes := (c.consecutive_successes + 1) % U32
    consecutive_failures := 0 }

/-- Embeds `Counts::onFailure`: bump both failure counters, zero the success streak. -/
def Counts.onFailure (c : Counts) : Counts :=
  { c with
    total_failures := (c.total_failures + 1) % U32
    consecutive_failures := (c.consecutive_failures + 1) % U32
    consecutive_successes := 0 }

/-- Embeds `Counts::clear`: all five fields reset to zero. -/
def Counts.clear : Counts := {}

/-- The `State` enum: `STATE_CLOSED = 0`, `STATE_HALF_OPEN = 1`, `STATE_OPEN = 2`. -/
inductive State where
  | STATE_CLOSED
  | STATE_HALF_OPEN
  | STATE_OPEN
  deriving Repr, DecidableEq

export State (STATE_CLOSED STATE_HALF_OPEN STATE_OPEN)

/-- The `Settings` struct with its C++ in-class initializers. -/
structure Settings where
  name : String := ""
  max_requests : Nat := 1
  interval : Int := 0
  timeout : Int := 60 * 1000000000
  ready_to_trip : Option (Counts → Bool) := none
  on_state_change : Option (String → State → State → Unit) := none

/-- Embeds `ResultCode::ResultCodeOK`. -/
def ResultCodeOK : Int := 0

/-- Embeds `ResultCode::ResultCodeErrTooManyRequests` (`-0x80000000`). -/
def ResultCodeErrTooManyRequests : Int := -0x80000000

/-- Embeds `ResultCode::ResultCodeErrOpenState` (`-0x70000000`). -/
def ResultCodeErrOpenState : Int := -0x70000000

/-- The mutable fields of `class CircuitBreaker` (the mutex is not data). -/
@[ext]
structure CircuitBreaker where
  settings : Settings
  state : State
  generation : Nat := 0
  counts : Counts := {}
  expiry : Int := 0

/-- Embeds `CircuitBreaker::defaultReadyToTrip` (ignores `this`). -/
def CircuitBreaker.defaultReadyToTrip (counts : Counts) : Bool :=
  counts.consecutive_failures > 5

/-- Embeds `CircuitBreaker::toNewGeneration`: bump the generation, clear the counts,
and set the expiry according to the (already stored) state. -/
def CircuitBreaker.toNewGeneration (b : CircuitBreaker) (now : Int) : CircuitBreaker :=
  let b' := { b with generation := (b.generation + 1) % U64, counts := Counts.clear }
  match b'.state with
  | STATE_CLOSED =>
      if b'.settings.interval = 0 then { b' with expiry := 0 }
      else { b' with expiry := now + b'.settings.interval }
  | STATE_OPEN => { b' with expiry := now + b'.settings.timeout }
  | STATE_HALF_OPEN => { b' with expiry := 0 }

/-- Embeds `CircuitBreaker::setState`: no-op when the target equals the current state,
otherwise switch and begin a new generation. The `on_state_change` hook runs
after the generation has advanced; it returns `void` and cannot change the
breaker, so it contributes nothing to the resulting record. -/
def CircuitBreaker.setState (b : CircuitBreaker) (st : State) (now : Int) : CircuitBreaker :=
  if b.state = st then b
  else CircuitBreaker.toNewGeneration { b with state := st } now

/-- Embeds `CircuitBreaker::currentState`: lazily apply the time-driven transition,
then report the stored state and generation (read off the returned record). -/
def CircuitBreaker.currentState (b : CircuitBreaker) (now : Int) : CircuitBreaker :=
  match b.state with
  | STATE_CLOSED =>
      if b.expiry ≠ 0 ∧ b.expiry < now then b.toNewGeneration now else b
  | STATE_OPEN =>
      if b.expiry < now then b.setState STATE_HALF_OPEN now else b
  | STATE_HALF_OPEN => b

/-- Embeds `CircuitBreaker::beforeRequest`: returns the updated breaker, the
generation written through `*gen`, and the returned `int` code. -/
def CircuitBreaker.beforeRequest (b : CircuitBreaker) (now : Int) :
    CircuitBreaker × Nat × Int :=
  let b1 := b.currentState now
  if b1.state = STATE_OPEN then
    (b1, b1.generation, ResultCodeErrOpenState)
  else if b1.state = STATE_HALF_OPEN ∧ b1.counts.requests ≥ b1.settings.max_requests then
    (b1, b1.generation, ResultCodeErrTooManyRequests)
  else
    ({ b1 with counts := b1.counts.onRequest }, b1.generation, ResultCodeOK)

/-- Embeds `CircuitBreaker::onSuccess` (the private outcome handler). -/
def CircuitBreaker.onSuccess (b : CircuitBreaker) (st : State) (now : Int) : CircuitBreaker :=
  match st with
  | STATE_CLOSED => { b with counts := b.counts.onSuccess }
  | STATE_HALF_OPEN =>
      let b' := { b with counts := b.counts.onSuccess }
      if b'.counts.consecutive_successes ≥ b'.settings.max_requests then
        b'.setState STATE_CLOSED now
      else b'
  | STATE_OPEN => b

/-- Embeds `CircuitBreaker::onFailure` (the private outcome handler). After
construction `settings_.ready_to_trip` is never null; calling a null
`std::function` is undefined, so the `none` branch (unreachable through the
public API) leaves the breaker as is. -/
def CircuitBreaker.onFailure (b : CircuitBreaker) (st : State) (now : Int) : CircuitBreaker :=
  match st with
  | STATE_CLOSED =>
      let b' := { b with counts := b.counts.onFailure }
      match b'.settings.ready_to_trip with
      | some f => if f b'.counts then b'.setState STATE_OPEN now else b'
      | none => b'
  | STATE_HALF_OPEN => b.setState STATE_OPEN now
  | STATE_OPEN => b

/-- Embeds `CircuitBreaker::afterRequest`. -/
def CircuitBreaker.afterRequest (b : CircuitBreaker) (before : Nat) (success : Bool)
    (now : Int) : CircuitBreaker :=
  let b1 := b.currentState now
  if b1.generation ≠ before then b1
  else if success then b1.onSuccess b1.state now
  else b1.onFailure b1.state now

/-- Embeds `CircuitBreaker::GetState`: runs `currentState` and returns the state. -/
def CircuitBreaker.GetState (b : CircuitBreaker) (now : Int) : CircuitBreaker × State :=
  let b1 := b.currentState now
  (b1, b1.state)

/-- Embeds `CircuitBreaker::StateString`. -/
def CircuitBreaker.StateString (st : State) : String :=
  if st = STATE_CLOSED then "close"
  else if st = STATE_HALF_OPEN then "half open"
  else "open"

/-- The constructor `CircuitBreaker::CircuitBreaker(const Settings&)`:
copy the settings, start Closed with zero expiry, apply the three default
coercions, then call `toNewGeneration(now)` (the member initializers give
`generation_ = 0` and zero counts). -/
def CircuitBreaker.construct (st : Settings) (now : Int) : CircuitBreaker :=
  let s1 := if st.max_requests = 0 then { st with max_requests := 1 } else st
  let s2 := if s1.timeout = 0 then { s1 with timeout := 60 * 1000000000 } else s1
  let s3 :=
    match s2.ready_to_trip with
    | none => { s2 with ready_to_trip := some CircuitBreaker.defaultReadyToTrip }
    | some _ => s2
  CircuitBreaker.toNewGeneration
    { settings := s3, state := STATE_CLOSED, generation := 0, counts := Counts.clear,
      expiry := 0 } now

/-- Embeds `CircuitBreaker::Execute`: the returned triple carries the value/code pair
returned to the caller, the resulting breaker, and the number of times the
wrapped operation was invoked (0 on the rejection path, 1 otherwise). -/
def CircuitBreaker.Execute {R : Type} [Inhabited R] (b : CircuitBreaker)
    (req : Unit → R × Int) (now1 now2 : Int) : (R × Int) × CircuitBreaker × Nat :=
  let r := b.beforeRequest now1
  if r.2.2 ≠ ResultCodeOK then ((default, r.2.2), r.1, 0)
  else
    let ret := req ()
    (ret, r.1.afterRequest r.2.1 (ret.2 == 0) now2, 1)

example : ((CircuitBreaker.construct {} 0).beforeRequest 0).2.2 = ResultCodeOK := by decide

example : ((CircuitBreaker.construct {} 0).beforeRequest 0).1.counts.requests = 1 := by decide

example : (CircuitBreaker.construct {} 0).generation = 1 := by decide

/-! ### Projection lemmas for the internal transition helpers -/

@[simp]
theorem CircuitBreaker.toNewGeneration_settings (b : CircuitBreaker) (now : Int) :
    (b.toNewGeneration now).settings = b.settings := by
  cases hb : b.state <;> simp [CircuitBreaker.toNewGeneration, hb] <;> split <;> rfl

@[simp]
theorem CircuitBreaker.toNewGeneration_state (b : CircuitBreaker) (now : Int) :
    (b.toNewGeneration now).state = b.state := by
  cases hb : b.state <;> simp [CircuitBreaker.toNewGeneration, hb] <;> split <;> rfl

@[simp]
theorem CircuitBreaker.toNewGeneration_counts (b : CircuitBreaker) (now : Int) :
    (b.toNewGeneration now).counts = Counts.clear := by
  cases hb : b.state <;> simp [CircuitBreaker.toNewGeneration, hb] <;> split <;> rfl

@[simp]
theorem CircuitBreaker.toNewGeneration_generation (b : CircuitBreaker) (now : Int) :
    (b.toNewGeneration now).generation = (b.generation + 1) % U64 := by
  cases hb : b.state <;> simp [CircuitBreaker.toNewGeneration, hb] <;> split <;> rfl

theorem CircuitBreaker.toNewGeneration_expiry_closed (b : CircuitBreaker) (now : Int)
    (hs : b.state = STATE_CLOSED) :
    (b.toNewGeneration now).expiry =
      if b.settings.interval = 0 then 0 else now + b.settings.interval := by
  simp only [CircuitBreaker.toNewGeneration, hs]
  split <;> rfl

theorem CircuitBreaker.toNewGeneration_expiry_open (b : CircuitBreaker) (now : Int)
    (hs : b.state = STATE_OPEN) :
    (b.toNewGeneration now).expiry = now + b.settings.timeout := by
  simp [CircuitBreaker.toNewGeneration, hs]

theorem CircuitBreaker.toNewGeneration_expiry_half (b : CircuitBreaker) (now : Int)
    (hs : b.state = STATE_HALF_OPEN) :
    (b.toNewGeneration now).expiry = 0 := by
  simp [CircuitBreaker.toNewGeneration, hs]

theorem CircuitBreaker.setState_self (b : CircuitBreaker) (st : State) (now : Int)
    (h : b.state = st) : b.setState st now = b := by
  unfold CircuitBreaker.setState
  exact if_pos h

theorem CircuitBreaker.setState_of_ne (b : CircuitBreaker) (st : State) (now : Int)
    (h : b.state ≠ st) :
    b.setState st now = CircuitBreaker.toNewGeneration { b with state := st } now := by
  unfold CircuitBreaker.setState
  exact if_neg h

theorem CircuitBreaker.currentState_closed_go (b : CircuitBreaker) (now : Int)
    (hs : b.state = STATE_CLOSED) (h1 : b.expiry ≠ 0) (h2 : b.expiry < now) :
    b.currentState now = b.toNewGeneration now := by
  simp [CircuitBreaker.currentState, hs, h1, h2]

theorem CircuitBreaker.currentState_closed_stay (b : CircuitBreaker) (now : Int)
    (hs : b.state = STATE_CLOSED) (h : ¬(b.expiry ≠ 0 ∧ b.expiry < now)) :
    b.currentState now = b := by
  simp only [CircuitBreaker.currentState, hs]
  exact if_neg h

theorem CircuitBreaker.currentState_open_go (b : CircuitBreaker) (now : Int)
    (hs : b.state = STATE_OPEN) (h : b.expiry < now) :
    b.currentState now = b.setState STATE_HALF_OPEN now := by
  simp [CircuitBreaker.currentState, hs, h]

theorem CircuitBreaker.currentState_open_stay (b : CircuitBreaker) (now : Int)
    (hs : b.state = STATE_OPEN) (h : ¬ b.expiry < now) :
    b.currentState now = b := by
  simp only [CircuitBreaker.currentState, hs]
  exact if_neg h

theorem CircuitBreaker.currentState_half (b : CircuitBreaker) (now : Int)
    (hs : b.state = STATE_HALF_OPEN) : b.currentState now = b := by
  simp [CircuitBreaker.currentState, hs]

/-- Every run of `currentState` is either the identity or a `toNewGeneration`
of the breaker with some (possibly updated) state. -/
theorem CircuitBreaker.currentState_cases (b : CircuitBreaker) (now : Int) :
    b.currentState now = b ∨
    ∃ st, b.currentState now = CircuitBreaker.toNewGeneration { b with state := st } now := by
  cases hs : b.state with
  | STATE_CLOSED =>
    by_cases h : b.expiry ≠ 0 ∧ b.expiry < now
    · right
      refine ⟨STATE_CLOSED, ?_⟩
      rw [CircuitBreaker.currentState_closed_go b now hs h.1 h.2]
      congr 1
      cases b
      simp_all
    · left; exact CircuitBreaker.currentState_closed_stay b now hs h
  | STATE_OPEN =>
    by_cases h : b.expiry < now
    · right
      refine ⟨STATE_HALF_OPEN, ?_⟩
      rw [CircuitBreaker.currentState_open_go b now hs h,
        CircuitBreaker.setState_of_ne]
      rw [hs]; intro hc; cases hc
    · left; exact CircuitBreaker.currentState_open_stay b now hs h
  | STATE_HALF_OPEN => left; exact CircuitBreaker.currentState_half b now hs

/-! ### Claim C2 -/

/-- C2: for every call to `afterRequest(token, success)` whose recomputed
generation differs from the token, the call leaves the breaker exactly as
`currentState(now)` left it — the stale outcome is discarded entirely, is not
surfaced as an error, and mutates nothing belonging to the newer epoch. -/
theorem afterRequest_stale_spec (b : CircuitBreaker) (tok : Nat) (success : Bool)
    (now : Int) (h : (b.currentState now).generation ≠ tok) :
    b.afterRequest tok success now = b.currentState now := by
  unfold CircuitBreaker.afterRequest
  exact if_pos h

theorem afterRequest_stale_spec_witness :
    ((CircuitBreaker.construct {} 0).currentState 0).generation ≠ 7 ∧
    (CircuitBreaker.construct {} 0).afterRequest 7 true 0 =
      (CircuitBreaker.construct {} 0).currentState 0 :=
  ⟨by decide, afterRequest_stale_spec (CircuitBreaker.construct {} 0) 7 true 0 (by decide)⟩

/-! ### Claim C4 -/

/-- C4: the three lazy time-driven transition rules of `currentState(now)`.
If the stored state is Closed with a non-zero expiry earlier than `now`, a
new generation begins (generation incremented, counts cleared) while the
state remains Closed and the new expiry is `now + interval` (or the zero
timestamp when `interval = 0`); if the stored state is Open with an expiry
earlier than `now`, the breaker moves to Half-Open with expiry reset to the
zero timestamp; in Half-Open no time-driven transition occurs. -/
theorem currentState_spec (b : CircuitBreaker) (now : Int) :
    (b.state = STATE_CLOSED → b.expiry ≠ 0 → b.expiry < now →
      b.currentState now =
        { b with
          generation := (b.generation + 1) % U64
          counts := Counts.clear
          expiry := if b.settings.interval = 0 then 0 else now + b.settings.interval }) ∧
    (b.state = STATE_OPEN → b.expiry < now →
      b.currentState now =
        { b with
          state := STATE_HALF_OPEN
          generation := (b.generation + 1) % U64
          counts := Counts.clear
          expiry := 0 }) ∧
    (b.state = STATE_HALF_OPEN → b.currentState now = b) := by
  refine ⟨fun hs h1 h2 => ?_, fun hs h2 => ?_, fun hs => ?_⟩
  · rw [CircuitBreaker.currentState_closed_go b now hs h1 h2]
    have he := CircuitBreaker.toNewGeneration_expiry_closed b now hs
    ext <;> simp [he, hs, Counts.clear]
  · rw [CircuitBreaker.currentState_open_go b now hs h2,
      CircuitBreaker.setState_of_ne _ _ _ (by rw [hs]; intro hc; cases hc)]
    have he := CircuitBreaker.toNewGeneration_expiry_half
      { b with state := STATE_HALF_OPEN } now rfl
    ext <;> simp [he, Counts.clear]
  · exact CircuitBreaker.currentState_half b now hs

theorem currentState_spec_witness :
    (((⟨{}, STATE_CLOSED, 3, {}, 7⟩ : CircuitBreaker).state = STATE_CLOSED ∧
       (7 : Int) ≠ 0 ∧ (7 : Int) < 10 ∧
       (⟨{}, STATE_CLOSED, 3, {}, 7⟩ : CircuitBreaker).currentState 10 =
         ⟨{}, STATE_CLOSED, 4, {}, 0⟩) ∧
     ((⟨{}, STATE_OPEN, 3, {}, 7⟩ : CircuitBreaker).state = STATE_OPEN ∧
       (⟨{}, STATE_OPEN, 3, {}, 7⟩ : CircuitBreaker).currentState 10 =
         ⟨{}, STATE_HALF_OPEN, 4, {}, 0⟩) ∧
     ((⟨{}, STATE_HALF_OPEN, 3, {}, 7⟩ : CircuitBreaker).state = STATE_HALF_OPEN ∧
       (⟨{}, STATE_HALF_OPEN, 3, {}, 7⟩ : CircuitBreaker).currentState 10 =
         ⟨{}, STATE_HALF_OPEN, 3, {}, 7⟩)) :=
  ⟨⟨rfl, by decide, by decide,
      (currentState_spec ⟨{}, STATE_CLOSED, 3, {}, 7⟩ 10).1 rfl (by decide) (by decide)⟩,
   ⟨rfl, (currentState_spec ⟨{}, STATE_OPEN, 3, {}, 7⟩ 10).2.1 rfl (by decide)⟩,
   ⟨rfl, (currentState_spec ⟨{}, STATE_HALF_OPEN, 3, {}, 7⟩ 10).2.2 rfl⟩⟩

/-! ### Claim C8 -/

/-- C8: constructing with all-default settings yields `max_requests = 1`,
`interval = 0`, `timeout = 60s`, the (non-null) default trip predicate, no
notification hook, state Closed, all counters zero and the zero-timestamp
expiry; and in general construction coerces `max_requests 0` to `1`,
`timeout 0` to `60s`, and an unset `ready_to_trip` to the default predicate. -/
theorem construct_spec :
    (∀ now : Int,
      (CircuitBreaker.construct {} now).settings.max_requests = 1 ∧
      (CircuitBreaker.construct {} now).settings.interval = 0 ∧
      (CircuitBreaker.construct {} now).settings.timeout = 60 * 1000000000 ∧
      (CircuitBreaker.construct {} now).settings.ready_to_trip =
        some CircuitBreaker.defaultReadyToTrip ∧
      (CircuitBreaker.construct {} now).settings.on_state_change = none ∧
      (CircuitBreaker.construct {} now).state = STATE_CLOSED ∧
      (CircuitBreaker.construct {} now).counts = Counts.clear ∧
      (CircuitBreaker.construct {} now).expiry = 0) ∧
    (∀ (s : Settings) (now : Int),
      (CircuitBreaker.construct s now).settings.max_requests =
        (if s.max_requests = 0 then 1 else s.max_requests) ∧
      (CircuitBreaker.construct s now).settings.timeout =
        (if s.timeout = 0 then 60 * 1000000000 else s.timeout) ∧
      (CircuitBreaker.construct s now).settings.ready_to_trip =
        some (s.ready_to_trip.getD CircuitBreaker.defaultReadyToTrip) ∧
      (CircuitBreaker.construct s now).state = STATE_CLOSED ∧
      (CircuitBreaker.construct s now).counts = Counts.clear) := by
  constructor
  · intro now
    exact ⟨rfl, rfl, rfl, rfl, rfl, rfl, rfl, rfl⟩
  · intro s now
    by_cases h1 : s.max_requests = 0 <;> by_cases h2 : s.timeout = 0 <;>
      cases h3 : s.ready_to_trip <;>
      simp [CircuitBreaker.construct, h1, h2, h3]

/-! ### Claim C9 -/

/-- C9 (counterexample): with a negative `interval` (a value the signed
`std::chrono::nanoseconds` type admits), a Closed-state rollover sets the new
expiry `now + interval` strictly before `now`, so a second `GetState` at the
very same instant rolls the generation again: the claim's "never changes the
generation" fails. -/
theorem GetState_idem_cex :
    ((((CircuitBreaker.construct { interval := -1 } 10).GetState 10).1.GetState 10).1.generation ≠
      ((CircuitBreaker.construct { interval := -1 } 10).GetState 10).1.generation) := by
  decide

/-- C9 (amended): provided the configured `interval` is non-negative, calling
`GetState` repeatedly at the same instant with no admitted or reported calls
in between changes nothing: after one call, a second call with the same `now`
returns the unchanged breaker and the same state (hence the same generation
and counters). -/
theorem GetState_idem (b : CircuitBreaker) (now : Int)
    (h : 0 ≤ b.settings.interval) :
    ((b.GetState now).1.GetState now) = ((b.GetState now).1, (b.GetState now).2) := by
  have key : ((b.currentState now).currentState now) = b.currentState now := by
    cases hs : b.state with
    | STATE_CLOSED =>
      by_cases hc : b.expiry ≠ 0 ∧ b.expiry < now
      · rw [CircuitBreaker.currentState_closed_go b now hs hc.1 hc.2]
        have hstate : (b.toNewGeneration now).state = STATE_CLOSED := by simp [hs]
        refine CircuitBreaker.currentState_closed_stay _ now hstate ?_
        rw [CircuitBreaker.toNewGeneration_expiry_closed b now hs]
        by_cases hi : b.settings.interval = 0
        · simp [hi]
        · simp only [if_neg hi]
          intro hcon
          omega
      · rw [CircuitBreaker.currentState_closed_stay b now hs hc]
        exact CircuitBreaker.currentState_closed_stay b now hs hc
    | STATE_OPEN =>
      by_cases hc : b.expiry < now
      · rw [CircuitBreaker.currentState_open_go b now hs hc,
          CircuitBreaker.setState_of_ne _ _ _ (by rw [hs]; intro hcon; cases hcon)]
        exact CircuitBreaker.currentState_half _ now (by simp)
      · rw [CircuitBreaker.currentState_open_stay b now hs hc]
        exact CircuitBreaker.currentState_open_stay b now hs hc
    | STATE_HALF_OPEN =>
      rw [CircuitBreaker.currentState_half b now hs]
      exact CircuitBreaker.currentState_half b now hs
  unfold CircuitBreaker.GetState
  simp only [key]

theorem GetState_idem_witness :
    (0 : Int) ≤ (CircuitBreaker.construct {} 5).settings.interval ∧
    (((CircuitBreaker.construct {} 5).GetState 5).1.GetState 5) =
      (((CircuitBreaker.construct {} 5).GetState 5).1,
        ((CircuitBreaker.construct {} 5).GetState 5).2) :=
  ⟨by decide, GetState_idem (CircuitBreaker.construct {} 5) 5 (by decide)⟩

/-! ### Claim C1 -/

/-- One `beforeRequest` call viewed as a map on the breaker (the caller keeps
the admitted breaker and discards the token and code). -/
def stepBefore (now : Int) (b : CircuitBreaker) : CircuitBreaker :=
  (b.beforeRequest now).1

/-- Closed-form for a run of Half-Open admissions: while the request counter
stays below `max_requests`, each `beforeRequest` admits and only bumps
`counts.requests`. -/
theorem stepBefore_halfOpen_iterate (b : CircuitBreaker) (now : Int)
    (hs : b.state = STATE_HALF_OPEN) (h0 : b.counts.requests = 0)
    (hmax : b.settings.max_requests < U32) :
    ∀ k, k ≤ b.settings.max_requests →
      (stepBefore now)^[k] b = { b with counts := { b.counts with requests := k } } := by
  intro k
  induction k with
  | zero =>
    intro _
    rw [Function.iterate_zero_apply]
    ext <;> simp [← h0]
  | succ k ih =>
    intro hk
    rw [Function.iterate_succ_apply', ih (Nat.le_of_succ_le hk)]
    have hst : ({ b with counts := { b.counts with requests := k } } :
        CircuitBreaker).state = STATE_HALF_OPEN := hs
    unfold stepBefore CircuitBreaker.beforeRequest
    rw [CircuitBreaker.currentState_half _ now hst]
    rw [if_neg (by rw [hst]; intro hc; cases hc)]
    rw [if_neg (by
      intro hc
      exact absurd hc.2 (not_le.2 (Nat.lt_of_succ_le hk)))]
    have : (k + 1) % U32 = k + 1 :=
      Nat.mod_eq_of_lt (lt_of_le_of_lt hk hmax)
    simp [Counts.onRequest, this]

/-- C1: `beforeRequest` evaluated after the lazy time-driven transition:
in Open it returns `ErrOpenState` and mutates no counter; in Half-Open with
`counts.requests ≥ max_requests` it returns `ErrTooManyRequests` and mutates
no counter; otherwise it bumps `counts.requests` by exactly one (as a 32-bit
counter), admits with `ResultCodeOK`, and hands back the current generation
as the token. Consequently, starting a Half-Open generation with zero
requests, each of the first `max_requests` admissions succeeds and the
`(max_requests + 1)`-th attempt is rejected with the quota code. -/
theorem beforeRequest_spec :
    (∀ (b : CircuitBreaker) (now : Int),
      (b.currentState now).state = STATE_OPEN →
      b.beforeRequest now =
        (b.currentState now, (b.currentState now).generation, ResultCodeErrOpenState)) ∧
    (∀ (b : CircuitBreaker) (now : Int),
      (b.currentState now).state = STATE_HALF_OPEN →
      (b.currentState now).counts.requests ≥ (b.currentState now).settings.max_requests →
      b.beforeRequest now =
        (b.currentState now, (b.currentState now).generation, ResultCodeErrTooManyRequests)) ∧
    (∀ (b : CircuitBreaker) (now : Int),
      (b.currentState now).state ≠ STATE_OPEN →
      ((b.currentState now).state = STATE_HALF_OPEN →
        (b.currentState now).counts.requests < (b.currentState now).settings.max_requests) →
      b.beforeRequest now =
        ({ b.currentState now with
            counts := { (b.currentState now).counts with
              requests := ((b.currentState now).counts.requests + 1) % U32 } },
          (b.currentState now).generation, ResultCodeOK)) ∧
    (∀ (b : CircuitBreaker) (now : Int),
      b.state = STATE_HALF_OPEN → b.counts.requests = 0 →
      b.settings.max_requests < U32 →
      (∀ k, k < b.settings.max_requests →
        (((stepBefore now)^[k] b).beforeRequest now).2.2 = ResultCodeOK) ∧
      (((stepBefore now)^[b.settings.max_requests] b).beforeRequest now).2.2 =
        ResultCodeErrTooManyRequests) := by
  have admitCase : ∀ (b : CircuitBreaker) (now : Int),
      (b.currentState now).state ≠ STATE_OPEN →
      ((b.currentState now).state = STATE_HALF_OPEN →
        (b.currentState now).counts.requests < (b.currentState now).settings.max_requests) →
      b.beforeRequest now =
        ({ b.currentState now with
            counts := { (b.currentState now).counts with
              requests := ((b.currentState now).counts.requests + 1) % U32 } },
          (b.currentState now).generation, ResultCodeOK) := by
    intro b now hno himp
    unfold CircuitBreaker.beforeRequest
    rw [if_neg hno, if_neg (fun hc => absurd hc.2 (not_le.2 (himp hc.1)))]
    rfl
  refine ⟨?_, ?_, admitCase, ?_⟩
  · intro b now hs
    unfold CircuitBreaker.beforeRequest
    rw [if_pos hs]
  · intro b now hs hq
    unfold CircuitBreaker.beforeRequest
    rw [if_neg (by rw [hs]; intro hc; cases hc), if_pos ⟨hs, hq⟩]
  · intro b now hs h0 hmax
    constructor
    · intro k hk
      rw [stepBefore_halfOpen_iterate b now hs h0 hmax k (Nat.le_of_lt hk)]
      have hst : ({ b with counts := { b.counts with requests := k } } :
          CircuitBreaker).state = STATE_HALF_OPEN := hs
      rw [admitCase _ now
        (by rw [CircuitBreaker.currentState_half _ now hst, hst]; intro hc; cases hc)
        (by rw [CircuitBreaker.currentState_half _ now hst]; intro _; exact hk)]
    · rw [stepBefore_halfOpen_iterate b now hs h0 hmax _ le_rfl]
      have hst : ({ b with counts :=
          { b.counts with requests := b.settings.max_requests } } :
          CircuitBreaker).state = STATE_HALF_OPEN := hs
      unfold CircuitBreaker.beforeRequest
      rw [CircuitBreaker.currentState_half _ now hst]
      rw [if_neg (by rw [hst]; intro hc; cases hc), if_pos ⟨hst, le_rfl⟩]

theorem beforeRequest_spec_witness :
    (((⟨{}, STATE_OPEN, 3, {}, 100⟩ : CircuitBreaker).beforeRequest 50).2.2 =
        ResultCodeErrOpenState) ∧
    (((⟨{}, STATE_HALF_OPEN, 3, { requests := 1 }, 0⟩ : CircuitBreaker).beforeRequest 0).2.2 =
        ResultCodeErrTooManyRequests) ∧
    (((CircuitBreaker.construct {} 0).beforeRequest 0).2.2 = ResultCodeOK) ∧
    ((((stepBefore 0)^[1] (⟨{ max_requests := 2 }, STATE_HALF_OPEN, 3, {}, 0⟩ :
        CircuitBreaker)).beforeRequest 0).2.2 = ResultCodeOK) ∧
    ((((stepBefore 0)^[2] (⟨{ max_requests := 2 }, STATE_HALF_OPEN, 3, {}, 0⟩ :
        CircuitBreaker)).beforeRequest 0).2.2 = ResultCodeErrTooManyRequests) :=
  ⟨by rw [beforeRequest_spec.1 ⟨{}, STATE_OPEN, 3, {}, 100⟩ 50 (by decide)],
   by rw [beforeRequest_spec.2.1 ⟨{}, STATE_HALF_OPEN, 3, { requests := 1 }, 0⟩ 0
     (by decide) (by decide)],
   by rw [beforeRequest_spec.2.2.1 (CircuitBreaker.construct {} 0) 0 (by decide) (by decide)],
   (beforeRequest_spec.2.2.2 ⟨{ max_requests := 2 }, STATE_HALF_OPEN, 3, {}, 0⟩ 0
     rfl rfl (by decide)).1 1 (by decide),
   (beforeRequest_spec.2.2.2 ⟨{ max_requests := 2 }, STATE_HALF_OPEN, 3, {}, 0⟩ 0
     rfl rfl (by decide)).2⟩

/-! ### Claim C10 -/

/-- C10: the `Counts` fields are 32-bit: with the all-default configuration
(`interval = 0`, so the Closed-state counters are never reset, and no failure
ever reported, so the breaker never trips), after `n` admitted requests the
`requests` counter reads `n % 2^32` while the breaker stays Closed in the
same (64-bit) generation; in particular after exactly `2^32` admissions it
wraps back to `0`. -/
theorem counts_wrap_spec :
    (∀ (now : Int) (n : Nat),
      ((stepBefore now)^[n] (CircuitBreaker.construct {} 0)).counts.requests = n % U32 ∧
      ((stepBefore now)^[n] (CircuitBreaker.construct {} 0)).state = STATE_CLOSED ∧
      ((stepBefore now)^[n] (CircuitBreaker.construct {} 0)).generation = 1) ∧
    ((stepBefore 0)^[2 ^ 32] (CircuitBreaker.construct {} 0)).counts.requests = 0 := by
  have closed_form : ∀ (now : Int) (n : Nat),
      (stepBefore now)^[n] (CircuitBreaker.construct {} 0) =
        { CircuitBreaker.construct {} 0 with
            counts := { requests := n % U32 } } := by
    intro now n
    induction n with
    | zero => rfl
    | succ n ih =>
      rw [Function.iterate_succ_apply', ih]
      unfold stepBefore CircuitBreaker.beforeRequest
      rw [CircuitBreaker.currentState_closed_stay _ now rfl (by intro hc; exact hc.1 rfl)]
      rw [if_neg (by intro hc; cases hc), if_neg (by intro hc; cases hc.1)]
      simp [Counts.onRequest, Nat.mod_add_mod]
  constructor
  · intro now n
    rw [closed_form now n]
    exact ⟨rfl, rfl, rfl⟩
  · rw [closed_form 0 (2 ^ 32)]
    show (2 ^ 32) % U32 = 0
    simp [U32]

/-! ### Claim C3 -/

/-- Reporting one failure against the current generation. -/
def stepFailure (now : Int) (b : CircuitBreaker) : CircuitBreaker :=
  b.afterRequest b.generation false now

/-- A reported failure in Closed state (no window expiry, default predicate)
that does not yet make the streak exceed 5 only tallies the failure. -/
theorem stepFailure_closed_low (b : CircuitBreaker) (now : Int)
    (hs : b.state = STATE_CLOSED) (hexp : b.expiry = 0)
    (htrip : b.settings.ready_to_trip = some CircuitBreaker.defaultReadyToTrip)
    (hlow : b.counts.consecutive_failures + 1 ≤ 5) :
    stepFailure now b = { b with counts := b.counts.onFailure } := by
  have hmod : (b.counts.consecutive_failures + 1) % U32 =
      b.counts.consecutive_failures + 1 :=
    Nat.mod_eq_of_lt (lt_of_le_of_lt hlow (by norm_num [U32]))
  unfold stepFailure CircuitBreaker.afterRequest
  rw [CircuitBreaker.currentState_closed_stay b now hs (by intro hc; exact hc.1 hexp)]
  rw [if_neg (not_not_intro rfl)]
  show b.onFailure b.state now = _
  rw [hs]
  unfold CircuitBreaker.onFailure
  dsimp only
  rw [htrip]
  dsimp only
  rw [if_neg (by
    simp only [CircuitBreaker.defaultReadyToTrip, Counts.onFailure, hmod,
      decide_eq_true_eq, gt_iff_lt, not_lt]
    omega)]
  rw [hs]

/-- The 6th consecutive reported failure in Closed state under the default
predicate trips the breaker to Open with cleared counts and a fresh expiry. -/
theorem stepFailure_closed_trip (b : CircuitBreaker) (now : Int)
    (hs : b.state = STATE_CLOSED) (hexp : b.expiry = 0)
    (htrip : b.settings.ready_to_trip = some CircuitBreaker.defaultReadyToTrip)
    (hcf : b.counts.consecutive_failures = 5) :
    stepFailure now b =
      { b with
        state := STATE_OPEN
        generation := (b.generation + 1) % U64
        counts := Counts.clear
        expiry := now + b.settings.timeout } := by
  unfold stepFailure CircuitBreaker.afterRequest
  rw [CircuitBreaker.currentState_closed_stay b now hs (by intro hc; exact hc.1 hexp)]
  rw [if_neg (not_not_intro rfl)]
  show b.onFailure b.state now = _
  rw [hs]
  unfold CircuitBreaker.onFailure
  dsimp only
  rw [htrip]
  dsimp only
  rw [if_pos (by
    simp only [CircuitBreaker.defaultReadyToTrip, Counts.onFailure, hcf]
    decide)]
  rw [CircuitBreaker.setState_of_ne _ _ _ (by
    intro hc
    have hc' : b.state = STATE_OPEN := hc
    rw [hs] at hc'
    cases hc')]
  have he := CircuitBreaker.toNewGeneration_expiry_open
    { b with counts := b.counts.onFailure, state := STATE_OPEN } now rfl
  ext <;> simp [he, Counts.clear]

/-- Closed form for the first five reported failures (no trip yet). -/
theorem stepFailure_iterate (b : CircuitBreaker) (now : Int)
    (hs : b.state = STATE_CLOSED) (hexp : b.expiry = 0)
    (htrip : b.settings.ready_to_trip = some CircuitBreaker.defaultReadyToTrip)
    (hcf0 : b.counts.consecutive_failures = 0)
    (htf : b.counts.total_failures + 6 < U32) :
    ∀ k, k ≤ 5 →
      (stepFailure now)^[k] b =
        { b with counts :=
          { b.counts with
            total_failures := b.counts.total_failures + k
            consecutive_failures := k
            consecutive_successes :=
              if k = 0 then b.counts.consecutive_successes else 0 } } := by
  intro k
  induction k with
  | zero =>
    intro _
    rw [Function.iterate_zero_apply]
    ext <;> simp [hcf0]
  | succ k ih =>
    intro hk
    rw [Function.iterate_succ_apply', ih (Nat.le_of_succ_le hk)]
    rw [stepFailure_closed_low
      { b with counts :=
        { b.counts with
          total_failures := b.counts.total_failures + k
          consecutive_failures := k
          consecutive_successes :=
            if k = 0 then b.counts.consecutive_successes else 0 } }
      now hs hexp htrip hk]
    have htfk : (b.counts.total_failures + k + 1) % U32 =
        b.counts.total_failures + k + 1 :=
      Nat.mod_eq_of_lt (by omega)
    have hcfk : (k + 1) % U32 = k + 1 :=
      Nat.mod_eq_of_lt (by
        have h5 : k + 1 ≤ 5 := hk
        have hU : (5 : Nat) < U32 := by norm_num [U32]
        omega)
    ext <;> simp [Counts.onFailure, htfk, hcfk] <;> omega

/-- C3: starting from a Closed breaker with the default trip predicate, a
fresh failure streak and no pending counter-window expiry, the reported
failures leave the breaker Closed (same generation) through the 5th, and the
6th consecutive failure — the first making `consecutive_failures` exceed 5 —
transitions it to Open with all counters reset to zero and the expiry set to
`now + timeout`, a non-zero timestamp in the future (for a non-negative `now`
and a positive `timeout`). -/
theorem closed_failure_trip_spec (b : CircuitBreaker) (now : Int)
    (hs : b.state = STATE_CLOSED) (hexp : b.expiry = 0)
    (htrip : b.settings.ready_to_trip = some CircuitBreaker.defaultReadyToTrip)
    (hcf0 : b.counts.consecutive_failures = 0)
    (htf : b.counts.total_failures + 6 < U32) :
    (∀ k, k ≤ 5 →
      ((stepFailure now)^[k] b).state = STATE_CLOSED ∧
      ((stepFailure now)^[k] b).counts.consecutive_failures = k ∧
      ((stepFailure now)^[k] b).generation = b.generation) ∧
    (((stepFailure now)^[6] b).state = STATE_OPEN ∧
      ((stepFailure now)^[6] b).counts = Counts.clear ∧
      ((stepFailure now)^[6] b).expiry = now + b.settings.timeout ∧
      (0 ≤ now → 0 < b.settings.timeout →
        now < ((stepFailure now)^[6] b).expiry ∧ ((stepFailure now)^[6] b).expiry ≠ 0)) := by
  have h5 := stepFailure_iterate b now hs hexp htrip hcf0 htf
  constructor
  · intro k hk
    rw [h5 k hk]
    exact ⟨hs, rfl, rfl⟩
  · have h6 : (stepFailure now)^[6] b =
        stepFailure now ((stepFailure now)^[5] b) :=
      Function.iterate_succ_apply' (stepFailure now) 5 b
    rw [h6, h5 5 le_rfl,
      stepFailure_closed_trip
        { b with counts :=
          { b.counts with
            total_failures := b.counts.total_failures + 5
            consecutive_failures := 5
            consecutive_successes :=
              if 5 = 0 then b.counts.consecutive_successes else 0 } }
        now hs hexp htrip rfl]
    refine ⟨rfl, rfl, rfl, fun hnow htime => ⟨?_, ?_⟩⟩
    · dsimp only
      omega
    · dsimp only
      omega

theorem closed_failure_trip_spec_witness :
    (((stepFailure 0)^[5] (CircuitBreaker.construct {} 0)).state = STATE_CLOSED ∧
      ((stepFailure 0)^[5] (CircuitBreaker.construct {} 0)).counts.consecutive_failures = 5 ∧
      ((stepFailure 0)^[5] (CircuitBreaker.construct {} 0)).generation =
        (CircuitBreaker.construct {} 0).generation) ∧
    (((stepFailure 0)^[6] (CircuitBreaker.construct {} 0)).state = STATE_OPEN ∧
      ((stepFailure 0)^[6] (CircuitBreaker.construct {} 0)).counts = Counts.clear ∧
      (0 : Int) < ((stepFailure 0)^[6] (CircuitBreaker.construct {} 0)).expiry ∧
      ((stepFailure 0)^[6] (CircuitBreaker.construct {} 0)).expiry ≠ 0) := by
  have h := closed_failure_trip_spec (CircuitBreaker.construct {} 0) 0
    rfl rfl rfl rfl (by decide)
  have hfuture := h.2.2.2.2 (by decide) (by decide)
  exact ⟨h.1 5 (by decide), h.2.1, h.2.2.1, hfuture.1, hfuture.2⟩

/-! ### Claim C5 -/

/-- C5: an outcome reported in Half-Open against the current generation.
A success records `counts.onSuccess()`; if `consecutive_successes` then
reaches `max_requests` the breaker transitions to Closed, beginning a new
generation with cleared counters, and otherwise nothing but the counters
changes. A failure transitions directly to Open — a new generation with
cleared counters and `total_failures = 0`, so the failure itself is never
tallied. -/
theorem halfOpen_outcome_spec (b : CircuitBreaker) (now : Int)
    (hs : b.state = STATE_HALF_OPEN) :
    (b.counts.onSuccess.consecutive_successes ≥ b.settings.max_requests →
      b.afterRequest b.generation true now =
        { b with
          state := STATE_CLOSED
          generation := (b.generation + 1) % U64
          counts := Counts.clear
          expiry := if b.settings.interval = 0 then 0 else now + b.settings.interval }) ∧
    (b.counts.onSuccess.consecutive_successes < b.settings.max_requests →
      b.afterRequest b.generation true now = { b with counts := b.counts.onSuccess }) ∧
    (b.afterRequest b.generation false now =
      { b with
        state := STATE_OPEN
        generation := (b.generation + 1) % U64
        counts := Counts.clear
        expiry := now + b.settings.timeout }) ∧
    ((b.afterRequest b.generation false now).counts.total_failures = 0) := by
  have hne : ¬ b.generation ≠ b.generation := not_not_intro rfl
  have hcur := CircuitBreaker.currentState_half b now hs
  have hfail : b.afterRequest b.generation false now =
      { b with
        state := STATE_OPEN
        generation := (b.generation + 1) % U64
        counts := Counts.clear
        expiry := now + b.settings.timeout } := by
    unfold CircuitBreaker.afterRequest
    rw [hcur, if_neg hne]
    show b.onFailure b.state now = _
    rw [hs]
    unfold CircuitBreaker.onFailure
    dsimp only
    rw [CircuitBreaker.setState_of_ne _ _ _ (by
      intro hc
      have hc' : b.state = STATE_OPEN := hc
      rw [hs] at hc'
      cases hc')]
    have he := CircuitBreaker.toNewGeneration_expiry_open
      { b with state := STATE_OPEN } now rfl
    ext <;> simp [he, Counts.clear]
  refine ⟨fun hge => ?_, fun hlt => ?_, hfail, by rw [hfail]; rfl⟩
  · unfold CircuitBreaker.afterRequest
    rw [hcur, if_neg hne]
    show b.onSuccess b.state now = _
    rw [hs]
    unfold CircuitBreaker.onSuccess
    dsimp only
    rw [if_pos hge]
    rw [CircuitBreaker.setState_of_ne _ _ _ (by
      intro hc
      have hc' : b.state = STATE_CLOSED := hc
      rw [hs] at hc'
      cases hc')]
    have he := CircuitBreaker.toNewGeneration_expiry_closed
      { b with counts := b.counts.onSuccess, state := STATE_CLOSED } now rfl
    ext <;> simp [he, Counts.clear]
  · unfold CircuitBreaker.afterRequest
    rw [hcur, if_neg hne]
    show b.onSuccess b.state now = _
    rw [hs]
    unfold CircuitBreaker.onSuccess
    dsimp only
    rw [if_neg (not_le.mpr hlt)]
    ext <;> simp [hs]

theorem halfOpen_outcome_spec_witness :
    ((⟨{}, STATE_HALF_OPEN, 3, { requests := 1 }, 0⟩ :
        CircuitBreaker).counts.onSuccess.consecutive_successes ≥
      (1 : Nat) ∧
     (⟨{}, STATE_HALF_OPEN, 3, { requests := 1 }, 0⟩ : CircuitBreaker).afterRequest 3 true 0 =
       ⟨{}, STATE_CLOSED, 4, Counts.clear, 0⟩) ∧
    ((⟨{ max_requests := 3 }, STATE_HALF_OPEN, 3, { requests := 1 }, 0⟩ :
        CircuitBreaker).counts.onSuccess.consecutive_successes < (3 : Nat) ∧
     (⟨{ max_requests := 3 }, STATE_HALF_OPEN, 3, { requests := 1 }, 0⟩ :
        CircuitBreaker).afterRequest 3 true 0 =
       ⟨{ max_requests := 3 }, STATE_HALF_OPEN, 3,
         { requests := 1, total_successes := 1, consecutive_successes := 1 }, 0⟩) ∧
    ((⟨{}, STATE_HALF_OPEN, 3, { requests := 1 }, 0⟩ : CircuitBreaker).afterRequest 3 false 0 =
       ⟨{}, STATE_OPEN, 4, Counts.clear, 60 * 1000000000⟩ ∧
     ((⟨{}, STATE_HALF_OPEN, 3, { requests := 1 }, 0⟩ :
        CircuitBreaker).afterRequest 3 false 0).counts.total_failures = 0) :=
  ⟨⟨by decide,
     (halfOpen_outcome_spec ⟨{}, STATE_HALF_OPEN, 3, { requests := 1 }, 0⟩ 0 rfl).1
       (by decide)⟩,
   ⟨by decide,
     (halfOpen_outcome_spec ⟨{ max_requests := 3 }, STATE_HALF_OPEN, 3,
       { requests := 1 }, 0⟩ 0 rfl).2.1 (by decide)⟩,
   (halfOpen_outcome_spec ⟨{}, STATE_HALF_OPEN, 3, { requests := 1 }, 0⟩ 0 rfl).2.2.1,
   (halfOpen_outcome_spec ⟨{}, STATE_HALF_OPEN, 3, { requests := 1 }, 0⟩ 0 rfl).2.2.2⟩

/-! ### Claim C7 -/

/-- C7: the `Execute` wrapper. On a Phase-1 rejection it returns the result
type's default value paired with the rejection code — one of the two reserved
sentinels — without ever invoking the wrapped operation (the result does not
depend on it, and the invocation count is 0). On admission the operation runs
exactly once, the verdict reported through Phase 2 is the Boolean
`code == 0`, and the operation's own value/code pair is returned unchanged. -/
theorem Execute_spec {R : Type} [Inhabited R] (b : CircuitBreaker)
    (req : Unit → R × Int) (now1 now2 : Int) :
    ((b.beforeRequest now1).2.2 ≠ ResultCodeOK →
      b.Execute req now1 now2 =
        ((default, (b.beforeRequest now1).2.2), (b.beforeRequest now1).1, 0) ∧
      ∀ req2 : Unit → R × Int, b.Execute req now1 now2 = b.Execute req2 now1 now2) ∧
    ((b.beforeRequest now1).2.2 = ResultCodeOK →
      b.Execute req now1 now2 =
        (req (),
          (b.beforeRequest now1).1.afterRequest (b.beforeRequest now1).2.1
            ((req ()).2 == 0) now2,
          1)) ∧
    ((b.beforeRequest now1).2.2 = ResultCodeOK ∨
      (b.beforeRequest now1).2.2 = ResultCodeErrOpenState ∨
      (b.beforeRequest now1).2.2 = ResultCodeErrTooManyRequests) := by
  refine ⟨fun h => ⟨?_, fun req2 => ?_⟩, fun h => ?_, ?_⟩
  · unfold CircuitBreaker.Execute
    rw [if_pos h]
  · unfold CircuitBreaker.Execute
    rw [if_pos h, if_pos h]
  · unfold CircuitBreaker.Execute
    rw [if_neg (not_not_intro h)]
  · unfold CircuitBreaker.beforeRequest
    dsimp only
    split
    · right; left; rfl
    · split
      · right; right; rfl
      · left; rfl

theorem Execute_spec_witness :
    (((CircuitBreaker.construct {} 0).beforeRequest 0).2.2 = ResultCodeOK ∧
      (CircuitBreaker.construct {} 0).Execute (fun _ => ((7 : Int), (0 : Int))) 0 0 =
        (((7 : Int), (0 : Int)),
          ((CircuitBreaker.construct {} 0).beforeRequest 0).1.afterRequest
            ((CircuitBreaker.construct {} 0).beforeRequest 0).2.1 true 0,
          1)) ∧
    (((⟨{}, STATE_OPEN, 3, {}, 100⟩ : CircuitBreaker).beforeRequest 50).2.2 ≠
        ResultCodeOK ∧
      (⟨{}, STATE_OPEN, 3, {}, 100⟩ : CircuitBreaker).Execute
          (fun _ => ((7 : Int), (0 : Int))) 50 50 =
        (((default : Int), ((⟨{}, STATE_OPEN, 3, {}, 100⟩ :
            CircuitBreaker).beforeRequest 50).2.2),
          ((⟨{}, STATE_OPEN, 3, {}, 100⟩ : CircuitBreaker).beforeRequest 50).1, 0)) :=
  ⟨⟨by decide,
     (Execute_spec (CircuitBreaker.construct {} 0)
       (fun _ => ((7 : Int), (0 : Int))) 0 0).2.1 (by decide)⟩,
   ⟨by decide,
     ((Execute_spec (⟨{}, STATE_OPEN, 3, {}, 100⟩ : CircuitBreaker)
       (fun _ => ((7 : Int), (0 : Int))) 50 50).1 (by decide)).1⟩⟩

/-! ### Claim C6: trace semantics

A trace interleaves the three gate operations. An admission pushes the
returned generation token into the in-flight pool; a report consumes one
matching token (a report whose token is not an outstanding admission is a
protocol violation and is modelled as a no-op — see the C6 counterexample
for what the raw code does on a double report). -/

/-- One gate call in a trace: a `beforeRequest`, an `afterRequest` with a
token, or a `GetState`, each at its own instant. -/
inductive Event where
  | breq (now : Int)
  | areq (gen : Nat) (success : Bool) (now : Int)
  | gstate (now : Int)

/-- A breaker together with the pool of tokens handed out to still-in-flight
admitted calls. -/
structure Config where
  breaker : CircuitBreaker
  inflight : List Nat

/-- One trace event applied to a configuration. -/
def step (cfg : Config) (e : Event) : Config :=
  match e with
  | .breq now =>
      let r := cfg.breaker.beforeRequest now
      if r.2.2 = ResultCodeOK then ⟨r.1, r.2.1 :: cfg.inflight⟩ else ⟨r.1, cfg.inflight⟩
  | .areq g success now =>
      if g ∈ cfg.inflight then ⟨cfg.breaker.afterRequest g success now, cfg.inflight.erase g⟩
      else cfg
  | .gstate now => ⟨(cfg.breaker.GetState now).1, cfg.inflight⟩

/-- Running a whole trace. -/
def run (cfg : Config) (es : List Event) : Config := es.foldl step cfg

/-- The counter invariant, strengthened by the number `k` of in-flight calls
admitted in the current generation. -/
def CountsOK (c : Counts) (k : Nat) : Prop :=
  c.total_successes + c.total_failures + k ≤ c.requests ∧
  c.consecutive_successes ≤ c.total_successes ∧
  c.consecutive_failures ≤ c.total_failures ∧
  (c.consecutive_successes = 0 ∨ c.consecutive_failures = 0) ∧
  c.requests < U32

/-- The inductive invariant of a configuration. -/
def Inv (cfg : Config) : Prop :=
  CountsOK cfg.breaker.counts (cfg.inflight.count cfg.breaker.generation) ∧
  ∀ t ∈ cfg.inflight, t ≤ cfg.breaker.generation

theorem CountsOK_clear : CountsOK Counts.clear 0 := by
  refine ⟨?_, ?_, ?_, Or.inl rfl, ?_⟩ <;> simp [Counts.clear, U32]

theorem CountsOK_mono (c : Counts) (k k' : Nat) (h : CountsOK c k) (hk : k' ≤ k) :
    CountsOK c k' :=
  ⟨by have := h.1; omega, h.2.1, h.2.2.1, h.2.2.2.1, h.2.2.2.2⟩

/-- After `toNewGeneration` the counters are cleared and no outstanding token
(of the old pool, with or without one erased) matches the new generation.  -/
theorem inv_after_newgen (bb : CircuitBreaker) (l : List Nat) (now : Int)
    (htok : ∀ t ∈ l, t ≤ bb.generation) (hg : bb.generation + 1 < U64) :
    (∀ l' : List Nat, (∀ t ∈ l', t ∈ l) →
      CountsOK (bb.toNewGeneration now).counts
        (l'.count (bb.toNewGeneration now).generation) ∧
      ∀ t ∈ l', t ≤ (bb.toNewGeneration now).generation) := by
  intro l' hsub
  have hgen : (bb.toNewGeneration now).generation = bb.generation + 1 := by
    rw [CircuitBreaker.toNewGeneration_generation]
    exact Nat.mod_eq_of_lt hg
  have hnot : (bb.generation + 1) ∉ l' := by
    intro hmem
    have := htok _ (hsub _ hmem)
    omega
  constructor
  · rw [CircuitBreaker.toNewGeneration_counts, hgen, List.count_eq_zero.mpr hnot]
    exact CountsOK_clear
  · intro t ht
    have := htok _ (hsub _ ht)
    omega

/-- Lemma: `currentState` either leaves the breaker untouched or advances to a fresh
generation with cleared counters (and unchanged settings). -/
theorem currentState_id_or_bump (b : CircuitBreaker) (now : Int)
    (hg : b.generation + 1 < U64) :
    b.currentState now = b ∨
    ((b.currentState now).generation = b.generation + 1 ∧
      (b.currentState now).counts = Counts.clear ∧
      (b.currentState now).settings = b.settings) := by
  rcases CircuitBreaker.currentState_cases b now with hid | ⟨st, heq⟩
  · exact Or.inl hid
  · right
    rw [heq]
    refine ⟨?_, ?_, ?_⟩
    · rw [CircuitBreaker.toNewGeneration_generation]
      exact Nat.mod_eq_of_lt hg
    · rw [CircuitBreaker.toNewGeneration_counts]
    · rw [CircuitBreaker.toNewGeneration_settings]

/-- Lemma: `currentState` preserves the invariant (and can only shrink the request
counter and advance the generation by at most one). -/
theorem inv_currentState (b : CircuitBreaker) (l : List Nat) (now : Int)
    (h : Inv ⟨b, l⟩) (hg : b.generation + 1 < U64) :
    Inv ⟨b.currentState now, l⟩ ∧
    (b.currentState now).counts.requests ≤ b.counts.requests ∧
    (b.currentState now).generation ≤ b.generation + 1 := by
  rcases CircuitBreaker.currentState_cases b now with hid | ⟨st, heq⟩
  · rw [hid]
    exact ⟨h, le_rfl, Nat.le_succ _⟩
  · have hnew := inv_after_newgen { b with state := st } l now h.2
      hg l (fun t ht => ht)
    rw [heq]
    refine ⟨⟨hnew.1, hnew.2⟩, ?_, ?_⟩
    · rw [CircuitBreaker.toNewGeneration_counts]
      exact Nat.zero_le _
    · rw [CircuitBreaker.toNewGeneration_generation]
      exact le_of_eq (Nat.mod_eq_of_lt hg)

/-- Lemma: `beforeRequest` either rejects (returning the lazily transitioned breaker
unchanged, with a non-OK code) or admits (bumping only `requests`, with the
current generation as token and code OK). -/
theorem beforeRequest_reject_or_pass (b : CircuitBreaker) (now : Int) :
    ((b.beforeRequest now).1 = b.currentState now ∧
      (b.beforeRequest now).2.2 ≠ ResultCodeOK) ∨
    ((b.beforeRequest now).1 =
        { b.currentState now with counts := (b.currentState now).counts.onRequest } ∧
      (b.beforeRequest now).2.1 = (b.currentState now).generation ∧
      (b.beforeRequest now).2.2 = ResultCodeOK) := by
  unfold CircuitBreaker.beforeRequest
  dsimp only
  split
  · exact Or.inl ⟨rfl, by show ResultCodeErrOpenState ≠ ResultCodeOK; decide⟩
  · split
    · exact Or.inl ⟨rfl, by show ResultCodeErrTooManyRequests ≠ ResultCodeOK; decide⟩
    · exact Or.inr ⟨rfl, rfl, rfl⟩

/-- An `afterRequest` whose recomputed generation differs from the token is
exactly `currentState`. -/
theorem afterRequest_of_ne (b : CircuitBreaker) (tok : Nat) (success : Bool)
    (now : Int) (h : (b.currentState now).generation ≠ tok) :
    b.afterRequest tok success now = b.currentState now := by
  unfold CircuitBreaker.afterRequest
  exact if_pos h

/-- An `afterRequest` with a matching token on an unchanged breaker
dispatches to the outcome handler for the stored state. -/
theorem afterRequest_of_eq (b : CircuitBreaker) (tok : Nat) (success : Bool)
    (now : Int) (hid : b.currentState now = b) (hgen : b.generation = tok) :
    b.afterRequest tok success now =
      if success then b.onSuccess b.state now else b.onFailure b.state now := by
  unfold CircuitBreaker.afterRequest
  rw [hid, if_neg (not_not_intro hgen)]

theorem onSuccess_closed_eq (b : CircuitBreaker) (now : Int) :
    b.onSuccess STATE_CLOSED now = { b with counts := b.counts.onSuccess } := rfl

theorem onSuccess_half_eq (b : CircuitBreaker) (now : Int) :
    b.onSuccess STATE_HALF_OPEN now =
      if b.counts.onSuccess.consecutive_successes ≥ b.settings.max_requests then
        CircuitBreaker.setState { b with counts := b.counts.onSuccess } STATE_CLOSED now
      else { b with counts := b.counts.onSuccess } := rfl

theorem onSuccess_open_eq (b : CircuitBreaker) (now : Int) :
    b.onSuccess STATE_OPEN now = b := rfl

theorem onFailure_closed_eq (b : CircuitBreaker) (now : Int) (f : Counts → Bool)
    (h : b.settings.ready_to_trip = some f) :
    b.onFailure STATE_CLOSED now =
      if f b.counts.onFailure then
        CircuitBreaker.setState { b with counts := b.counts.onFailure } STATE_OPEN now
      else { b with counts := b.counts.onFailure } := by
  unfold CircuitBreaker.onFailure
  dsimp only
  rw [h]

theorem onFailure_closed_none_eq (b : CircuitBreaker) (now : Int)
    (h : b.settings.ready_to_trip = none) :
    b.onFailure STATE_CLOSED now = { b with counts := b.counts.onFailure } := by
  unfold CircuitBreaker.onFailure
  dsimp only
  rw [h]

theorem onFailure_half_eq (b : CircuitBreaker) (now : Int) :
    b.onFailure STATE_HALF_OPEN now = b.setState STATE_OPEN now := rfl

theorem onFailure_open_eq (b : CircuitBreaker) (now : Int) :
    b.onFailure STATE_OPEN now = b := rfl

/-- One in-flight call of the current generation (witnessed by its token in
the pool) reports success: the tallied counters still satisfy the invariant. -/
theorem inv_tally_success (b : CircuitBreaker) (l : List Nat) (g : Nat)
    (hmem : g ∈ l) (hgen : b.generation = g) (h : Inv ⟨b, l⟩) :
    Inv ⟨{ b with counts := b.counts.onSuccess }, l.erase g⟩ := by
  unfold Inv CountsOK at h
  dsimp only at h
  obtain ⟨⟨hc1, hc2, hc3, hc4, hc5⟩, htoks⟩ := h
  have hk1 : 1 ≤ l.count b.generation := by
    rw [hgen]
    exact Nat.one_le_iff_ne_zero.mpr (fun h0 => (List.count_eq_zero.mp h0) hmem)
  have hsmall : b.counts.total_successes + 1 < U32 := by omega
  have hcs : b.counts.consecutive_successes + 1 < U32 := by omega
  have hmods : (b.counts.total_successes + 1) % U32 = b.counts.total_successes + 1 :=
    Nat.mod_eq_of_lt hsmall
  have hmodc : (b.counts.consecutive_successes + 1) % U32 =
      b.counts.consecutive_successes + 1 := Nat.mod_eq_of_lt hcs
  have hcount : (l.erase g).count b.generation = l.count b.generation - 1 := by
    rw [hgen, List.count_erase_self]
  constructor
  · show CountsOK b.counts.onSuccess ((l.erase g).count b.generation)
    rw [hcount]
    exact ⟨by simp [Counts.onSuccess, hmods]; omega,
      by simp [Counts.onSuccess, hmods, hmodc]; omega,
      by simp [Counts.onSuccess],
      Or.inr (by simp [Counts.onSuccess]),
      by simp [Counts.onSuccess]; omega⟩
  · intro t ht
    exact htoks t (List.mem_of_mem_erase ht)

/-- One in-flight call of the current generation reports failure without
tripping: the tallied counters still satisfy the invariant. -/
theorem inv_tally_failure (b : CircuitBreaker) (l : List Nat) (g : Nat)
    (hmem : g ∈ l) (hgen : b.generation = g) (h : Inv ⟨b, l⟩) :
    Inv ⟨{ b with counts := b.counts.onFailure }, l.erase g⟩ := by
  unfold Inv CountsOK at h
  dsimp only at h
  obtain ⟨⟨hc1, hc2, hc3, hc4, hc5⟩, htoks⟩ := h
  have hk1 : 1 ≤ l.count b.generation := by
    rw [hgen]
    exact Nat.one_le_iff_ne_zero.mpr (fun h0 => (List.count_eq_zero.mp h0) hmem)
  have hsmall : b.counts.total_failures + 1 < U32 := by omega
  have hcf : b.counts.consecutive_failures + 1 < U32 := by omega
  have hmods : (b.counts.total_failures + 1) % U32 = b.counts.total_failures + 1 :=
    Nat.mod_eq_of_lt hsmall
  have hmodc : (b.counts.consecutive_failures + 1) % U32 =
      b.counts.consecutive_failures + 1 := Nat.mod_eq_of_lt hcf
  have hcount : (l.erase g).count b.generation = l.count b.generation - 1 := by
    rw [hgen, List.count_erase_self]
  constructor
  · show CountsOK b.counts.onFailure ((l.erase g).count b.generation)
    rw [hcount]
    exact ⟨by simp [Counts.onFailure, hmods]; omega,
      by simp [Counts.onFailure],
      by simp [Counts.onFailure, hmods, hmodc]; omega,
      Or.inl (by simp [Counts.onFailure]),
      by simp [Counts.onFailure]; omega⟩
  · intro t ht
    exact htoks t (List.mem_of_mem_erase ht)

/-- An outcome that begins a new generation (any trip or recovery) restores
the invariant with the freshly cleared counters, zero requests, and the
generation advanced by one. -/
theorem inv_newgen_result (bb : CircuitBreaker) (l : List Nat) (g : Nat) (now : Int)
    (htok : ∀ t ∈ l, t ≤ bb.generation) (hg : bb.generation + 1 < U64) :
    Inv ⟨bb.toNewGeneration now, l.erase g⟩ ∧
    (bb.toNewGeneration now).counts.requests = 0 ∧
    (bb.toNewGeneration now).generation = bb.generation + 1 := by
  have hmain := inv_after_newgen bb l now htok hg (l.erase g)
    (fun t ht => List.mem_of_mem_erase ht)
  refine ⟨⟨hmain.1, hmain.2⟩, ?_, ?_⟩
  · rw [CircuitBreaker.toNewGeneration_counts]
    rfl
  · rw [CircuitBreaker.toNewGeneration_generation]
    exact Nat.mod_eq_of_lt hg

/-- One trace event preserves the invariant; the request counter grows by at
most one and the generation by at most two (so the step budgets compose). -/
theorem step_inv (b : CircuitBreaker) (l : List Nat) (e : Event)
    (h : Inv ⟨b, l⟩)
    (hr : b.counts.requests + 1 < U32)
    (hg : b.generation + 2 < U64) :
    Inv (step ⟨b, l⟩ e) ∧
    (step ⟨b, l⟩ e).breaker.counts.requests ≤ b.counts.requests + 1 ∧
    (step ⟨b, l⟩ e).breaker.generation ≤ b.generation + 2 := by
  have hg1 : b.generation + 1 < U64 := by omega
  have hco : CountsOK b.counts (l.count b.generation) := h.1
  have htokh : ∀ t ∈ l, t ≤ b.generation := h.2
  cases e with
  | breq now =>
    have hcur := inv_currentState b l now h hg1
    simp only [step]
    rcases beforeRequest_reject_or_pass b now with ⟨h1, h2⟩ | ⟨h1, htokeq, h2⟩
    · rw [if_neg h2, h1]
      exact ⟨hcur.1, le_trans hcur.2.1 (Nat.le_succ _), le_trans hcur.2.2 (by omega)⟩
    · rw [if_pos h2, h1, htokeq]
      obtain ⟨hInv1, hreq1, hgen1⟩ := hcur
      unfold Inv CountsOK at hInv1 ⊢
      dsimp only at hInv1 ⊢
      obtain ⟨⟨hc1, hc2, hc3, hc4, hc5⟩, htoks⟩ := hInv1
      have hmod : ((b.currentState now).counts.requests + 1) % U32 =
          (b.currentState now).counts.requests + 1 := Nat.mod_eq_of_lt (by omega)
      simp only [Counts.onRequest, List.count_cons_self, hmod]
      refine ⟨⟨⟨?_, hc2, hc3, hc4, ?_⟩, ?_⟩, ?_, ?_⟩
      · omega
      · omega
      · intro t ht
        rcases List.mem_cons.mp ht with hteq | htl
        · exact le_of_eq hteq
        · exact htoks t htl
      · omega
      · omega
  | areq g success now =>
    simp only [step]
    by_cases hmem : g ∈ l
    case neg =>
      rw [if_neg hmem]
      exact ⟨h, Nat.le_succ _, Nat.le_add_right _ 2⟩
    case pos =>
      rw [if_pos hmem]
      rcases currentState_id_or_bump b now hg1 with hid | ⟨hbump, hclear, hsetts⟩
      case inr =>
        have hne : (b.currentState now).generation ≠ g := by
          have htg := htokh g hmem
          omega
        rw [afterRequest_of_ne b g success now hne]
        refine ⟨⟨?_, ?_⟩, ?_, ?_⟩
        · show CountsOK (b.currentState now).counts
            ((l.erase g).count (b.currentState now).generation)
          rw [hclear, hbump]
          have hnot : (b.generation + 1) ∉ l.erase g := by
            intro hin
            have := htokh _ (List.mem_of_mem_erase hin)
            omega
          rw [List.count_eq_zero.mpr hnot]
          exact CountsOK_clear
        · intro t ht
          rw [hbump]
          have := htokh t (List.mem_of_mem_erase ht)
          omega
        · rw [hclear]
          simp [Counts.clear]
        · rw [hbump]
          omega
      case inl =>
        by_cases hgen : b.generation = g
        case neg =>
          rw [afterRequest_of_ne b g success now (by rw [hid]; exact hgen), hid]
          refine ⟨⟨?_, ?_⟩, Nat.le_succ _, Nat.le_add_right _ 2⟩
          · show CountsOK b.counts ((l.erase g).count b.generation)
            rw [List.count_erase_of_ne hgen]
            exact hco
          · intro t ht
            exact htokh t (List.mem_of_mem_erase ht)
        case pos =>
          rw [afterRequest_of_eq b g success now hid hgen]
          cases success with
          | true =>
            rw [if_pos rfl]
            cases hst : b.state with
            | STATE_CLOSED =>
              rw [onSuccess_closed_eq]
              exact ⟨inv_tally_success b l g hmem hgen h,
                by dsimp only [Counts.onSuccess]; omega,
                by dsimp only; omega⟩
            | STATE_HALF_OPEN =>
              rw [onSuccess_half_eq]
              by_cases hth : b.counts.onSuccess.consecutive_successes ≥
                  b.settings.max_requests
              · rw [if_pos hth]
                rw [CircuitBreaker.setState_of_ne _ _ _ (by
                  intro hc
                  have hc' : b.state = STATE_CLOSED := hc
                  rw [hst] at hc'
                  cases hc')]
                have hnr := inv_newgen_result
                  { b with counts := b.counts.onSuccess, state := STATE_CLOSED }
                  l g now htokh hg1
                exact ⟨hnr.1, le_trans (le_of_eq hnr.2.1) (Nat.zero_le _),
                  le_trans (le_of_eq hnr.2.2) (Nat.le_succ _)⟩
              · rw [if_neg hth]
                exact ⟨inv_tally_success b l g hmem hgen h,
                  by dsimp only [Counts.onSuccess]; omega,
                  by dsimp only; omega⟩
            | STATE_OPEN =>
              rw [onSuccess_open_eq]
              refine ⟨⟨?_, ?_⟩, Nat.le_succ _, Nat.le_add_right _ 2⟩
              · show CountsOK b.counts ((l.erase g).count b.generation)
                refine CountsOK_mono _ _ _ hco ?_
                rw [hgen, List.count_erase_self]
                omega
              · intro t ht
                exact htokh t (List.mem_of_mem_erase ht)
          | false =>
            rw [if_neg Bool.false_ne_true]
            cases hst : b.state with
            | STATE_CLOSED =>
              rcases htrip : b.settings.ready_to_trip with _ | f
              · rw [onFailure_closed_none_eq b now htrip]
                exact ⟨inv_tally_failure b l g hmem hgen h,
                  by dsimp only [Counts.onFailure]; omega,
                  by dsimp only; omega⟩
              · rw [onFailure_closed_eq b now f htrip]
                by_cases htripped : f b.counts.onFailure = true
                · rw [if_pos htripped]
                  rw [CircuitBreaker.setState_of_ne _ _ _ (by
                    intro hc
                    have hc' : b.state = STATE_OPEN := hc
                    rw [hst] at hc'
                    cases hc')]
                  have hnr := inv_newgen_result
                    { b with counts := b.counts.onFailure, state := STATE_OPEN }
                    l g now htokh hg1
                  exact ⟨hnr.1, le_trans (le_of_eq hnr.2.1) (Nat.zero_le _),
                    le_trans (le_of_eq hnr.2.2) (Nat.le_succ _)⟩
                · rw [if_neg htripped]
                  exact ⟨inv_tally_failure b l g hmem hgen h,
                    by dsimp only [Counts.onFailure]; omega,
                    by dsimp only; omega⟩
            | STATE_HALF_OPEN =>
              rw [onFailure_half_eq]
              rw [CircuitBreaker.setState_of_ne _ _ _ (by
                intro hc
                rw [hst] at hc
                cases hc)]
              have hnr := inv_newgen_result { b with state := STATE_OPEN }
                l g now htokh hg1
              exact ⟨hnr.1, le_trans (le_of_eq hnr.2.1) (Nat.zero_le _),
                le_trans (le_of_eq hnr.2.2) (Nat.le_succ _)⟩
            | STATE_OPEN =>
              rw [onFailure_open_eq]
              refine ⟨⟨?_, ?_⟩, Nat.le_succ _, Nat.le_add_right _ 2⟩
              · show CountsOK b.counts ((l.erase g).count b.generation)
                refine CountsOK_mono _ _ _ hco ?_
                rw [hgen, List.count_erase_self]
                omega
              · intro t ht
                exact htokh t (List.mem_of_mem_erase ht)
  | gstate now =>
    have hcur := inv_currentState b l now h hg1
    simp only [step]
    rw [show (b.GetState now).1 = b.currentState now from rfl]
    exact ⟨hcur.1, le_trans hcur.2.1 (Nat.le_succ _), le_trans hcur.2.2 (by omega)⟩

/-- A whole trace preserves the invariant, provided its length keeps the
32-bit request counter and the 64-bit generation from wrapping. -/
theorem run_inv (es : List Event) : ∀ (b : CircuitBreaker) (l : List Nat),
    Inv ⟨b, l⟩ →
    b.counts.requests + es.length < U32 →
    b.generation + 2 * es.length < U64 →
    Inv (run ⟨b, l⟩ es) := by
  induction es with
  | nil =>
    intro b l h _ _
    exact h
  | cons e es ih =>
    intro b l h hr hg
    rw [List.length_cons] at hr hg
    obtain ⟨hI, hR, hG⟩ := step_inv b l e h (by omega) (by omega)
    unfold run
    rw [List.foldl_cons]
    cases hc : step ⟨b, l⟩ e with
    | mk b' l' =>
      rw [hc] at hI hR hG
      dsimp only at hR hG
      exact ih b' l' hI (by omega) (by omega)

/-- C6 (counterexample): the claim quantifies over arbitrary sequences of
`beforeRequest`/`afterRequest`/`GetState` calls, but `afterRequest` accepts
any token: reporting the same admitted call twice (one `beforeRequest`, then
two `afterRequest(1, success)` against the still-current generation) drives
`total_successes` to 2 with `requests` still 1, violating
`total_successes + total_failures ≤ requests`. -/
theorem counts_invariant_cex :
    ¬ (((((CircuitBreaker.construct {} 0).beforeRequest 0).1.afterRequest 1 true 0).afterRequest
          1 true 0).counts.total_successes +
        ((((CircuitBreaker.construct {} 0).beforeRequest 0).1.afterRequest 1 true 0).afterRequest
          1 true 0).counts.total_failures ≤
        ((((CircuitBreaker.construct {} 0).beforeRequest 0).1.afterRequest 1 true 0).afterRequest
          1 true 0).counts.requests) := by
  decide

/-- C6 (amended): for every trace of gate calls from a freshly constructed
breaker in which every `afterRequest` consumes the token of a distinct,
still-outstanding earlier admission (the `Execute` discipline), and which is
shorter than `2^32` events (so the 32-bit counters cannot wrap), every
reachable state satisfies `total_successes + total_failures ≤ requests`, and
at least one of the two consecutive counters is zero. -/
theorem counts_invariant (s : Settings) (t0 : Int) (es : List Event)
    (hlen : es.length < U32) :
    (run ⟨CircuitBreaker.construct s t0, []⟩ es).breaker.counts.total_successes +
      (run ⟨CircuitBreaker.construct s t0, []⟩ es).breaker.counts.total_failures ≤
      (run ⟨CircuitBreaker.construct s t0, []⟩ es).breaker.counts.requests ∧
    ((run ⟨CircuitBreaker.construct s t0, []⟩ es).breaker.counts.consecutive_successes = 0 ∨
      (run ⟨CircuitBreaker.construct s t0, []⟩ es).breaker.counts.consecutive_failures = 0) := by
  have hc : (CircuitBreaker.construct s t0).counts = Counts.clear := by
    unfold CircuitBreaker.construct
    dsimp only
    rw [CircuitBreaker.toNewGeneration_counts]
  have hgen0 : (CircuitBreaker.construct s t0).generation = 1 := by
    unfold CircuitBreaker.construct
    dsimp only
    rw [CircuitBreaker.toNewGeneration_generation]
    show 1 % U64 = 1
    exact Nat.mod_eq_of_lt (by norm_num [U64])
  have hinv0 : Inv ⟨CircuitBreaker.construct s t0, []⟩ := by
    constructor
    · show CountsOK (CircuitBreaker.construct s t0).counts _
      rw [hc, List.count_nil]
      exact CountsOK_clear
    · intro t ht
      cases ht
  have hUU : 2 * U32 + 1 ≤ U64 := by norm_num [U32, U64]
  have h := run_inv es (CircuitBreaker.construct s t0) [] hinv0
    (by rw [hc]; show 0 + es.length < U32; omega)
    (by rw [hgen0]; omega)
  unfold Inv CountsOK at h
  obtain ⟨⟨hc1, hc2, hc3, hc4, hc5⟩, _⟩ := h
  exact ⟨by omega, hc4⟩

theorem counts_invariant_witness :
    ([Event.breq 0, Event.areq 1 true 0].length < U32) ∧
    ((run ⟨CircuitBreaker.construct {} 0, []⟩
        [Event.breq 0, Event.areq 1 true 0]).breaker.counts.total_successes +
      (run ⟨CircuitBreaker.construct {} 0, []⟩
        [Event.breq 0, Event.areq 1 true 0]).breaker.counts.total_failures ≤
      (run ⟨CircuitBreaker.construct {} 0, []⟩
        [Event.breq 0, Event.areq 1 true 0]).breaker.counts.requests ∧
    ((run ⟨CircuitBreaker.construct {} 0, []⟩
        [Event.breq 0, Event.areq 1 true 0]).breaker.counts.consecutive_successes = 0 ∨
      (run ⟨CircuitBreaker.construct {} 0, []⟩
        [Event.breq 0, Event.areq 1 true 0]).breaker.counts.consecutive_failures = 0)) :=
  ⟨by decide, counts_invariant {} 0 [Event.breq 0, Event.areq 1 true 0] (by decide)⟩

end Cppbreaker
